import Mathlib

/-!
Verification of the gonano wallet core.

Shallow embedding of the wallet engine: the proof-of-work generator (pow.Generate /
pow.GenerateCPU), per-account block construction (Account.SendBlock, Account.SendBlocks,
Account.receivePending, Account.ChangeRep), and the wallet registry (Wallet.NewAccount,
Wallet.ScanForAccounts).  External collaborators (the ledger RPC client, address
encoding, key derivation, the blake2b primitive, ed25519 signing) are modelled as
oracle parameters gathered in a `LedgerEnv`; everything the repository itself computes
is translated directly from the source.  Machine integers are Nat with explicit
`% 2 ^ 64` / `% 2 ^ 32` where Go overflow semantics matter; big.Int amounts are Int;
fallible calls return `Except String`.
-/

namespace Gonano

/-- A byte string; each entry is a byte value (kept below 256 by construction). -/
abbrev Bytes := List Nat

/-- Big-endian 8-byte encoding of a 64-bit value (Go `binary.BigEndian.PutUint64`). -/
def beBytes8 (x : Nat) : Bytes :=
  [x / 2 ^ 56 % 256, x / 2 ^ 48 % 256, x / 2 ^ 40 % 256, x / 2 ^ 32 % 256,
   x / 2 ^ 24 % 256, x / 2 ^ 16 % 256, x / 2 ^ 8 % 256, x % 256]

/-- Little-endian 8-byte encoding of a 64-bit value (Go `binary.LittleEndian.PutUint64`). -/
def leBytes8 (x : Nat) : Bytes :=
  [x % 256, x / 2 ^ 8 % 256, x / 2 ^ 16 % 256, x / 2 ^ 24 % 256,
   x / 2 ^ 32 % 256, x / 2 ^ 40 % 256, x / 2 ^ 48 % 256, x / 2 ^ 56 % 256]

/-- Go `binary.LittleEndian.Uint64`: the first 8 bytes read as a little-endian
64-bit integer (the source only applies it to 8-byte hashes). -/
def leUint64 : Bytes → Nat
  | b0 :: b1 :: b2 :: b3 :: b4 :: b5 :: b6 :: b7 :: _ =>
    b0 + b1 * 2 ^ 8 + b2 * 2 ^ 16 + b3 * 2 ^ 24 +
    b4 * 2 ^ 32 + b5 * 2 ^ 40 + b6 * 2 ^ 48 + b7 * 2 ^ 56
  | _ => 0

/-- Go `binary.BigEndian.Uint64`: the first 8 bytes read as a big-endian 64-bit
integer (applied by pow.Generate to the 8 decoded difficulty bytes). -/
def beUint64 : Bytes → Nat
  | b0 :: b1 :: b2 :: b3 :: b4 :: b5 :: b6 :: b7 :: _ =>
    b0 * 2 ^ 56 + b1 * 2 ^ 48 + b2 * 2 ^ 40 + b3 * 2 ^ 32 +
    b4 * 2 ^ 24 + b5 * 2 ^ 16 + b6 * 2 ^ 8 + b7
  | _ => 0

/-- The proof-of-work acceptance test of pow.GenerateCPU's inner loop: the 8-byte
keyed hash (blake2b-8, abstracted as `H`) of the candidate bytes followed by the
data, read little-endian, must reach the target. -/
def powAccepts (H : Bytes → Bytes) (candidate data : Bytes) (target : Nat) : Bool :=
  decide (target ≤ leUint64 (H (candidate ++ data)))

/-- One worker loop of pow.GenerateCPU: starting from nonce `x` and stepping by `n`
(the worker count), hash the big-endian encoding of the current nonce followed by
`data` and stop at the first accepting candidate.  The Go loop is unbounded; `fuel`
bounds it here, with `none` meaning the bound was reached before a hit. -/
def GenerateWorker (H : Bytes → Bytes) (data : Bytes) (target n : Nat) :
    Nat → Nat → Option Bytes
  | _, 0 => none
  | x, fuel + 1 =>
    let work := beBytes8 (x % 2 ^ 64)
    if powAccepts H work data target then some work
    else GenerateWorker H data target n ((x + n) % 2 ^ 64) fuel

/-- pow.GenerateCPU, seen through the worker that wins the race: `n` workers share a
random 64-bit seed `x0`; worker `i` scans the residue class `x0 + i (mod n)`.  The
channel returns the winning worker's candidate unchanged. -/
def GenerateCPU (H : Bytes → Bytes) (data : Bytes) (target n i x0 fuel : Nat) :
    Option Bytes :=
  GenerateWorker H data target n ((x0 + i) % 2 ^ 64) fuel

/-- pow.Generate: reads the difficulty bytes big-endian as the target, runs
GenerateCPU, and reverses the returned byte slice in place. -/
def Generate (H : Bytes → Bytes) (data difficulty : Bytes) (n i x0 fuel : Nat) :
    Option Bytes :=
  (GenerateCPU H data (beUint64 difficulty) n i x0 fuel).map List.reverse

/-- rpc.Block: the unit submitted to the ledger.  `previous` is an Option since the
Go field is a nillable byte slice. -/
structure Block where
  type : String
  account : String
  previous : Option Bytes
  representative : String
  balance : Int
  link : Bytes
  signature : Option Bytes
  work : Option Bytes
  deriving DecidableEq

/-- rpc.AccountInfo, restricted to the fields the wallet core reads. -/
structure AccountInfo where
  frontier : Option Bytes
  representative : String
  balance : Int
  deriving DecidableEq

/-- wallet.Account: one derived identity.  The back-pointer to the wallet is passed
explicitly where needed. -/
structure Account where
  index : Nat
  key : Bytes
  pubkey : Bytes
  address : String
  representative : String
  deriving DecidableEq

/-- The wallet's signing strategy: seedImpl signs with the account key, ledgerImpl
always fails ("ledger support not available"). -/
inductive SignerImpl where
  | seedImpl
  | ledgerImpl
  deriving DecidableEq

deriving instance DecidableEq for Except

/-- Modelled from the spec: the external collaborators of the core, absent from the
translated sources — the ledger RPC client (balance/frontier/pending queries, block
submission, remote work), the opaque address encoding between public keys and
address strings, deterministic key derivation from the wallet seed, the canonical
block hash, and ed25519 signing.  Each is an oracle; fallible calls return Except. -/
structure LedgerEnv where
  addressToPubkey : String → Except String Bytes
  pubkeyToAddress : Bytes → Except String String
  deriveAccount : Nat → Except String (Bytes × Bytes)
  sign : Bytes → Bytes → Bytes
  blockHash : Block → Bytes
  accountInfo : String → Except String AccountInfo
  accountsBalances : List String → Except String (String → Int × Int)
  accountsFrontiers : List String → Except String (String → Option Bytes)
  process : Block → String → Except String Bytes
  remoteWork : Bytes → Bytes → Except String Bytes
  localWork : Bytes → Bytes → Except String Bytes

/-- The wallet's difficulty configuration (WorkDifficulty and ReceiveWorkDifficulty,
already hex-decoded to bytes). -/
structure WalletCfg where
  workDifficulty : Bytes
  receiveWorkDifficulty : Bytes
  deriving DecidableEq

/-- The 32-byte all-zero hash (`make(rpc.BlockHash, 32)`). -/
def zeros32 : Bytes := List.replicate 32 0

/-- The representative-caching step shared by SendBlock and SendBlocks:
`if a.representative == "" { a.representative = info.Representative }`. -/
def updRep (cached observed : String) : String :=
  if cached = "" then observed else cached

/-- seedImpl.signBlock / ledgerImpl.signBlock: seedImpl hashes the block and attaches
the ed25519 signature over that hash; ledgerImpl always fails.  (In Go the canonical
hash itself can fail to compute; the spec treats the canonical hash as total, so the
oracle `blockHash` is total here.) -/
def signBlock (env : LedgerEnv) (impl : SignerImpl) (a : Account) (block : Block) :
    Except String Block :=
  match impl with
  | .seedImpl => .ok { block with signature := some (env.sign a.key (env.blockHash block)) }
  | .ledgerImpl => .error "ledger support not available"

/-- The state-block literal built by SendBlock, SendBlocks and receivePending:
the account's address and cached representative, with the given previous hash,
resulting balance and link, signature and work not yet attached. -/
def stateBlock (a : Account) (previous : Option Bytes) (balance : Int)
    (link : Bytes) : Block :=
  { type := "state", account := a.address, previous := previous,
    representative := a.representative, balance := balance, link := link,
    signature := none, work := none }

/-- Account.SendBlock: decode the destination, fetch account info, cache the
representative on first use, refuse when the confirmed balance minus the amount is
negative, otherwise build and sign a send block with balance = confirmed − amount.
Returns the updated account (its cached representative may have been set) with the
result. -/
def SendBlock (env : LedgerEnv) (impl : SignerImpl) (a : Account)
    (account : String) (amount : Int) : Account × Except String Block :=
  match env.addressToPubkey account with
  | .error e => (a, .error e)
  | .ok link =>
    match env.accountInfo a.address with
    | .error e => (a, .error e)
    | .ok info =>
      let a1 := { a with representative := updRep a.representative info.representative }
      let newBalance := info.balance - amount
      if newBalance < 0 then (a1, .error "insufficient funds")
      else (a1, signBlock env impl a1 (stateBlock a1 info.frontier newBalance link))

/-- A destination of Account.SendBlocks. -/
structure SendDestination where
  account : String
  amount : Int
  deriving DecidableEq

/-- The loop of Account.SendBlocks: `bal` is the running balance (`info.Balance` is
mutated by the Sub in Go), `frontier` the running previous-hash, threaded as the hash
of the block just constructed. -/
def sendBlocksLoop (env : LedgerEnv) (impl : SignerImpl) (a : Account)
    (infoRep : String) (bal : Int) (frontier : Option Bytes) :
    List SendDestination → Account × Except String (List Block)
  | [] => (a, .ok [])
  | d :: rest =>
    match env.addressToPubkey d.account with
    | .error e => (a, .error e)
    | .ok link =>
      let a1 := { a with representative := updRep a.representative infoRep }
      let bal1 := bal - d.amount
      if bal1 < 0 then (a1, .error "insufficient funds")
      else
        match signBlock env impl a1 (stateBlock a1 frontier bal1 link) with
        | .error e => (a1, .error e)
        | .ok signed =>
          match sendBlocksLoop env impl a1 infoRep bal1 (some (env.blockHash signed)) rest with
          | (a2, .error e) => (a2, .error e)
          | (a2, .ok blocks) => (a2, .ok (signed :: blocks))

/-- Account.SendBlocks: fetch account info once, then build the whole chain of send
blocks offline, each block's previous being the hash of the block before it. -/
def SendBlocks (env : LedgerEnv) (impl : SignerImpl) (a : Account)
    (destinations : List SendDestination) : Account × Except String (List Block) :=
  match env.accountInfo a.address with
  | .error e => (a, .error e)
  | .ok info =>
    sendBlocksLoop env impl a info.representative info.balance info.frontier destinations

/-- Wallet.workGenerate (work.go): try the remote work RPC with the send/change
difficulty, falling back to local pow.Generate.  The local generator's unbounded
random search is abstracted as the oracle `localWork`. -/
def workGenerate (env : LedgerEnv) (cfg : WalletCfg) (data : Bytes) : Except String Bytes :=
  match env.remoteWork data cfg.workDifficulty with
  | .ok work => .ok work
  | .error _ => env.localWork data cfg.workDifficulty

/-- Wallet.workGenerateReceive (work.go): same as workGenerate but with the
receive-specific difficulty. -/
def workGenerateReceive (env : LedgerEnv) (cfg : WalletCfg) (data : Bytes) :
    Except String Bytes :=
  match env.remoteWork data cfg.receiveWorkDifficulty with
  | .ok work => .ok work
  | .error _ => env.localWork data cfg.receiveWorkDifficulty

/-- The fixed fallback representative of Account.receivePending. -/
def defaultRepresentative : String :=
  "nano_3gonano8jnse4zm65jaiki9tk8ry4jtgc1smarinukho6fmbc45k3icsh6en"

/-- The representative-caching step of Account.receivePending: on first use take the
ledger-observed representative, and if that is empty too fall back to the fixed
default. -/
def receiveRep (cached observed : String) : String :=
  if cached = "" then (if observed = "" then defaultRepresentative else observed)
  else cached

/-- Account.receivePending (the single receive-block constructor): a nil frontier
means previous is the 32-byte zero hash and the work data is the account's public
key; otherwise both are the frontier.  Builds, signs, generates receive-difficulty
work, and submits with subtype "receive". -/
def receivePending (env : LedgerEnv) (impl : SignerImpl) (cfg : WalletCfg)
    (a : Account) (info : AccountInfo) (link : Bytes) : Account × Except String Bytes :=
  let workHash := match info.frontier with
    | some f => f
    | none => a.pubkey
  let previous := match info.frontier with
    | some f => f
    | none => zeros32
  let a1 := { a with representative := receiveRep a.representative info.representative }
  match signBlock env impl a1 (stateBlock a1 (some previous) info.balance link) with
  | .error e => (a1, .error e)
  | .ok signed =>
    match workGenerateReceive env cfg workHash with
    | .error e => (a1, .error e)
    | .ok work => (a1, env.process { signed with work := some work } "receive")

/-- The block Account.ChangeRep constructs before signing: unchanged balance,
all-zero link, the new representative. -/
def changeRepBlock (a : Account) (info : AccountInfo) (representative : String) :
    Block :=
  { type := "state", account := a.address, previous := info.frontier,
    representative := representative, balance := info.balance,
    link := zeros32, signature := none, work := none }

/-- Account.ChangeRep: build a block with the unchanged balance, an all-zero link and
the new representative, sign it, compute send/change-difficulty work over the
frontier, submit with subtype "change", and cache the new representative only when
submission succeeded.  (The work data, a nillable slice in Go, is taken from the
frontier with nil read as empty.) -/
def ChangeRep (env : LedgerEnv) (impl : SignerImpl) (cfg : WalletCfg)
    (a : Account) (representative : String) : Account × Except String Bytes :=
  match env.accountInfo a.address with
  | .error e => (a, .error e)
  | .ok info =>
    match signBlock env impl a (changeRepBlock a info representative) with
    | .error e => (a, .error e)
    | .ok signed =>
      match workGenerate env cfg (info.frontier.getD []) with
      | .error e => (a, .error e)
      | .ok work =>
        match env.process { signed with work := some work } "change" with
        | .error e => (a, .error e)
        | .ok hash => ({ a with representative := representative }, .ok hash)

/-- The wallet's mutable state shared by registry operations: the next derivation
index (a uint32 in Go) and the registry map, modelled as an association list with
unique keys (Go map iteration order is irrelevant to the claims). -/
structure WalletState where
  nextIndex : Nat
  accounts : List (String × Account)
  deriving DecidableEq

/-- Go map read `w.accounts[address]`. -/
def lookupAcct (l : List (String × Account)) (address : String) : Option Account :=
  (l.find? (fun e => e.1 == address)).map Prod.snd

/-- Go map `delete(w.accounts, address)`. -/
def removeAcct (l : List (String × Account)) (address : String) :
    List (String × Account) :=
  l.filter (fun e => !(e.1 == address))

/-- Wallet.NewAccount: pick the explicit index or nextIndex, derive the key pair and
address, increment nextIndex (mod 2^32) only when no explicit index was given, and
register the account only when its address is not already present; an auto-indexed
collision retries with the fresh nextIndex.  The Go retry recursion is unbounded;
`fuel` bounds it here with an error the source never raises. -/
def NewAccount (env : LedgerEnv) (st : WalletState) (index : Option Nat) :
    Nat → WalletState × Except String Account
  | 0 => (st, .error "collision retry limit")
  | fuel + 1 =>
    let index2 := match index with
      | some i => i
      | none => st.nextIndex
    match env.deriveAccount index2 with
    | .error e => (st, .error e)
    | .ok (pubkey, key) =>
      match env.pubkeyToAddress pubkey with
      | .error e => (st, .error e)
      | .ok address =>
        let a : Account :=
          { index := index2, key := key, pubkey := pubkey, address := address,
            representative := "" }
        let st1 : WalletState := match index with
          | none => { st with nextIndex := (st.nextIndex + 1) % 2 ^ 32 }
          | some _ => st
        match lookupAcct st1.accounts address with
        | none => ({ st1 with accounts := st1.accounts ++ [(address, a)] }, .ok a)
        | some _ =>
          match index with
          | none => NewAccount env st1 none fuel
          | some _ => (st1, .ok a)

/-- The probe-batch loop of Wallet.ScanForAccounts: `k` successive NewAccount(nil)
calls, collecting the probe addresses in order. -/
def mkProbeBatch (env : LedgerEnv) (nfuel : Nat) :
    WalletState → Nat → WalletState × Except String (List String)
  | st, 0 => (st, .ok [])
  | st, k + 1 =>
    match NewAccount env st none nfuel with
    | (st1, .error e) => (st1, .error e)
    | (st1, .ok a) =>
      match mkProbeBatch env nfuel st1 k with
      | (st2, .error e) => (st2, .error e)
      | (st2, .ok addrs) => (st2, .ok (a.address :: addrs))

/-- The downward loop of Wallet.ScanForAccounts over the probe batch in descending
slot order (each item paired with its slot number): stop at the first probe with a
positive pending balance or a non-nil frontier, otherwise rewind nextIndex to the
probe's registered index and evict it.  Returns the loop index at which the loop
stopped, −1 when it ran off the low end.  A registry miss during eviction would be a
nil-pointer dereference in Go; it is unreachable (every probe was just registered)
and modelled as an error. -/
def scanEvict (balances : String → Int × Int) (frontiers : String → Option Bytes) :
    WalletState → List (Nat × String) → Except String (WalletState × Int)
  | st, [] => .ok (st, -1)
  | st, (i, address) :: rest =>
    if 0 < (balances address).2 then .ok (st, (i : Int))
    else if (frontiers address).isSome then .ok (st, (i : Int))
    else
      match lookupAcct st.accounts address with
      | none => .error "nil account dereference"
      | some a =>
        scanEvict balances frontiers
          { nextIndex := a.index, accounts := removeAcct st.accounts address } rest

/-- Wallet.ScanForAccounts: create a probe batch of 10, query balances and frontiers
in two batched calls, run the downward eviction loop, and stop if it reached slot 4
or lower (at least 5 trailing unused probes); otherwise recurse.  The Go recursion is
unbounded; `fuel` bounds it here with an error the source never raises. -/
def ScanForAccounts (env : LedgerEnv) (nfuel : Nat) :
    WalletState → Nat → WalletState × Except String Unit
  | st, 0 => (st, .error "scan recursion limit")
  | st, fuel + 1 =>
    match mkProbeBatch env nfuel st 10 with
    | (st1, .error e) => (st1, .error e)
    | (st1, .ok addrs) =>
      match env.accountsBalances addrs with
      | .error e => (st1, .error e)
      | .ok balances =>
        match env.accountsFrontiers addrs with
        | .error e => (st1, .error e)
        | .ok frontiers =>
          match scanEvict balances frontiers st1 addrs.enum.reverse with
          | .error e => (st1, .error e)
          | .ok (st2, i) =>
            if i < 5 then (st2, .ok ())
            else ScanForAccounts env nfuel st2 fuel

/-- The address NewAccount would register for a derivation index: derive the key
pair, then encode the public key. -/
def addrOfIndex (env : LedgerEnv) (i : Nat) : Except String String :=
  match env.deriveAccount i with
  | .error e => .error e
  | .ok (pubkey, _) => env.pubkeyToAddress pubkey

/-- The registry invariant maintained by NewAccount: keys are pairwise distinct and
every entry's key is the address derived from its account's index. -/
def RegistryGood (env : LedgerEnv) (l : List (String × Account)) : Prop :=
  l.Pairwise (fun e₁ e₂ => e₁.1 ≠ e₂.1) ∧
  ∀ e ∈ l, addrOfIndex env e.2.index = .ok e.1

/-- A sequence of NewAccount calls (each with its index argument and retry fuel),
keeping only the wallet state. -/
def runNewAccounts (env : LedgerEnv) :
    WalletState → List (Option Nat × Nat) → WalletState
  | st, [] => st
  | st, (index, fuel) :: rest => runNewAccounts env (NewAccount env st index fuel).1 rest

/-- A fresh wallet's registry state (newWallet: empty map, zero nextIndex). -/
def initWalletState : WalletState := { nextIndex := 0, accounts := [] }

/-- The chain shape SendBlocks is claimed to produce, checked structurally: the first
block extends `frontier` with balance `bal − amount`, each later block extends the
hash of the block before it, and no balance is negative. -/
def chainOk (env : LedgerEnv) :
    Option Bytes → Int → List SendDestination → List Block → Bool
  | _, _, [], [] => true
  | frontier, bal, d :: ds, b :: bs =>
    (b.previous == frontier) && (b.balance == bal - d.amount) && decide (0 ≤ b.balance) &&
    chainOk env (some (env.blockHash b)) b.balance ds bs
  | _, _, _, _ => false

/-- A concrete 8-byte keyed-hash instance for closed runs of the generator: it
accepts exactly the candidate `[0,...,0,1]` (the big-endian bytes of 1) with value 1
and maps everything else to 0. -/
def testHash (b : Bytes) : Bytes :=
  if b = [0, 0, 0, 0, 0, 0, 0, 1] then [1, 0, 0, 0, 0, 0, 0, 0]
  else [0, 0, 0, 0, 0, 0, 0, 0]

/-- A ledger environment whose every oracle is inert; concrete scenarios override
the fields they exercise. -/
def baseEnv : LedgerEnv where
  addressToPubkey _ := .error "unused"
  pubkeyToAddress _ := .error "unused"
  deriveAccount _ := .error "unused"
  sign _ _ := []
  blockHash _ := []
  accountInfo _ := .error "unused"
  accountsBalances _ := .error "unused"
  accountsFrontiers _ := .error "unused"
  process _ _ := .error "unused"
  remoteWork _ _ := .error "unused"
  localWork _ _ := .error "unused"

/-- Concrete account info for the send/change/receive scenarios. -/
def infoW : AccountInfo := { frontier := some [7], representative := "REP", balance := 500 }

/-- Concrete account for the send/change/receive scenarios (empty cached
representative). -/
def acctW : Account :=
  { index := 0, key := [9], pubkey := [8], address := "self", representative := "" }

/-- Concrete difficulty configuration. -/
def cfgW : WalletCfg := { workDifficulty := [255], receiveWorkDifficulty := [254] }

/-- Environment for the send scenarios: destination pubkeys are the address length,
account info is `infoW`, the block hash is the balance's low byte. -/
def envSend : LedgerEnv :=
  { baseEnv with
    addressToPubkey := fun s => .ok [s.length],
    accountInfo := fun _ => .ok infoW,
    blockHash := fun b => [b.balance.toNat % 256],
    sign := fun _ _ => [1] }

/-- Environment for the change-rep and receive scenarios: submission succeeds with
hash `[42]`, remote work succeeds with `[5]`. -/
def envChange : LedgerEnv :=
  { envSend with
    process := fun _ _ => .ok [42],
    remoteWork := fun _ _ => .ok [5] }

/-- Account info of a never-opened account (no frontier, no representative). -/
def infoOpen : AccountInfo := { frontier := none, representative := "", balance := 1000 }

/-- Derivation oracle for the registry scenarios: index `i` yields public key and
private key `[i % 256]`. -/
def scanDerive (i : Nat) : Except String (Bytes × Bytes) :=
  .ok ([i % 256], [i % 256])

/-- Address oracle for the registry scenarios: the decimal print of the first
public-key byte. -/
def scanAddr (b : Bytes) : Except String String :=
  .ok (Nat.repr (b.headD 0))

/-- Registry environment where every probe is unused (zero balances, no frontiers). -/
def envScanA : LedgerEnv :=
  { baseEnv with
    deriveAccount := scanDerive,
    pubkeyToAddress := scanAddr,
    accountsBalances := fun _ => .ok (fun _ => (0, 0)),
    accountsFrontiers := fun _ => .ok (fun _ => none) }

/-- Registry environment where the account derived at index 7 has a pending balance
of 1 and everything else is unused. -/
def envScanB : LedgerEnv :=
  { envScanA with
    accountsBalances := fun _ =>
      .ok (fun address => if address = Nat.repr 7 then (0, 1) else (0, 0)) }

/-- The account the registry scenarios derive at index `i`. -/
def scanAcct (i : Nat) : Account :=
  { index := i, key := [i % 256], pubkey := [i % 256], address := Nat.repr i,
    representative := "" }

/-- The wallet state after the index-7-pending scan: indices 0–7 registered,
nextIndex rewound to 8. -/
def stScanB : WalletState :=
  { nextIndex := 8,
    accounts := (List.range 8).map (fun i => (Nat.repr i, scanAcct i)) }

/-- A registry state with the index-0 account already registered and nextIndex 3,
for the explicit-index re-derivation scenario. -/
def stC9 : WalletState :=
  { nextIndex := 3, accounts := [(Nat.repr 0, scanAcct 0)] }

/-- The two destinations of the concrete chain-send scenario. -/
def sendDestsW : List SendDestination := [⟨"dst", 100⟩, ⟨"dd", 150⟩]

/-- First block of the concrete chain-send scenario. -/
def blockW1 : Block :=
  { type := "state", account := "self", previous := some [7], representative := "REP",
    balance := 400, link := [3], signature := some [1], work := none }

/-- Second block of the concrete chain-send scenario: its previous is the hash
`[144]` of the first block (400 % 256). -/
def blockW2 : Block :=
  { type := "state", account := "self", previous := some [144], representative := "REP",
    balance := 250, link := [2], signature := some [1], work := none }

theorem generateWorker_accepts (H : Bytes → Bytes) (data : Bytes) (target n : Nat) :
    ∀ fuel x w, GenerateWorker H data target n x fuel = some w →
      powAccepts H w data target = true := by
  intro fuel
  induction fuel with
  | zero => intro x w h; exact absurd h (by simp [GenerateWorker])
  | succ fuel ih =>
    intro x w h
    simp only [GenerateWorker] at h
    split at h
    case isTrue hacc => cases h; exact hacc
    case isFalse => exact ih _ _ h

theorem generateWorker_bigEndian (H : Bytes → Bytes) (data : Bytes) (target n : Nat) :
    ∀ fuel x w, GenerateWorker H data target n x fuel = some w →
      ∃ y, y < 2 ^ 64 ∧ w = beBytes8 y := by
  intro fuel
  induction fuel with
  | zero => intro x w h; exact absurd h (by simp [GenerateWorker])
  | succ fuel ih =>
    intro x w h
    simp only [GenerateWorker] at h
    split at h
    case isTrue hacc =>
      cases h
      exact ⟨x % 2 ^ 64, Nat.mod_lt _ (by positivity), rfl⟩
    case isFalse => exact ih _ _ h

/-- C3 (amended): the nonce returned by GenerateCPU satisfies the keyed-hash
acceptance test against the big-endian-decoded difficulty, and Generate returns
exactly that byte string reversed — so it is the byte-reversal of Generate's result,
not the result itself, that passes the test. -/
theorem Generate_reversed_nonce_accepts (H : Bytes → Bytes)
    (data difficulty : Bytes) (n i x0 fuel : Nat) (w : Bytes)
    (h : Generate H data difficulty n i x0 fuel = some w) :
    GenerateCPU H data (beUint64 difficulty) n i x0 fuel = some w.reverse ∧
    powAccepts H w.reverse data (beUint64 difficulty) = true := by
  unfold Generate at h
  cases hg : GenerateCPU H data (beUint64 difficulty) n i x0 fuel with
  | none => rw [hg] at h; exact absurd h (by simp)
  | some v =>
    rw [hg] at h
    simp only [Option.map_some', Option.some.injEq] at h
    subst h
    rw [List.reverse_reverse]
    refine ⟨rfl, ?_⟩
    simp only [GenerateCPU] at hg
    exact generateWorker_accepts H data (beUint64 difficulty) n fuel _ v hg

/-- C3 counterexample: a closed run of Generate whose returned nonce fails the
acceptance test (the accepting candidate was byte-reversed before being returned). -/
theorem Generate_nonce_fails_test :
    Generate testHash [] [0, 0, 0, 0, 0, 0, 0, 1] 1 0 1 1 =
      some [1, 0, 0, 0, 0, 0, 0, 0] ∧
    powAccepts testHash [1, 0, 0, 0, 0, 0, 0, 0] [] (beUint64 [0, 0, 0, 0, 0, 0, 0, 1]) =
      false := by
  exact ⟨by decide, by decide⟩

/-- C3 witness: the amended theorem applied to a closed run. -/
theorem Generate_reversed_nonce_accepts_witness :
    Generate testHash [] [0, 0, 0, 0, 0, 0, 0, 1] 1 0 1 1 =
      some [1, 0, 0, 0, 0, 0, 0, 0] ∧
    powAccepts testHash (List.reverse [1, 0, 0, 0, 0, 0, 0, 0]) []
      (beUint64 [0, 0, 0, 0, 0, 0, 0, 1]) = true :=
  ⟨by decide,
   (Generate_reversed_nonce_accepts testHash [] [0, 0, 0, 0, 0, 0, 0, 1] 1 0 1 1
      [1, 0, 0, 0, 0, 0, 0, 0] (by decide)).2⟩

/-- C6 (amended): the internal candidate representation hashed by a worker is the
winning nonce's big-endian byte encoding (not little-endian), and the work value
returned by Generate is that internal representation with its byte order reversed. -/
theorem GenerateCPU_bigEndian_and_reversal (H : Bytes → Bytes)
    (data difficulty : Bytes) (n i x0 fuel : Nat) (w : Bytes)
    (h : GenerateCPU H data (beUint64 difficulty) n i x0 fuel = some w) :
    (∃ x, x < 2 ^ 64 ∧ w = beBytes8 x) ∧
    Generate H data difficulty n i x0 fuel = some w.reverse := by
  refine ⟨?_, ?_⟩
  · simp only [GenerateCPU] at h
    exact generateWorker_bigEndian H data (beUint64 difficulty) n fuel _ w h
  · simp only [Generate, h, Option.map_some']

/-- C6 counterexample: a closed run whose winning nonce is 1 (one worker, start 1,
step 1, first iteration) where the hashed internal candidate is the big-endian bytes
of 1, which differ from the little-endian bytes of 1. -/
theorem GenerateCPU_not_littleEndian :
    GenerateCPU testHash [] 1 1 0 1 1 = some (beBytes8 1) ∧
    beBytes8 1 ≠ leBytes8 1 ∧
    Generate testHash [] [0, 0, 0, 0, 0, 0, 0, 1] 1 0 1 1 = some (beBytes8 1).reverse := by
  exact ⟨by decide, by decide, by decide⟩

/-- C6 witness: the amended theorem applied to a closed run. -/
theorem GenerateCPU_bigEndian_and_reversal_witness :
    (∃ x, x < 2 ^ 64 ∧ ([0, 0, 0, 0, 0, 0, 0, 1] : Bytes) = beBytes8 x) ∧
    Generate testHash [] [0, 0, 0, 0, 0, 0, 0, 1] 1 0 1 1 =
      some (List.reverse [0, 0, 0, 0, 0, 0, 0, 1]) :=
  GenerateCPU_bigEndian_and_reversal testHash [] [0, 0, 0, 0, 0, 0, 0, 1] 1 0 1 1
    [0, 0, 0, 0, 0, 0, 0, 1] (by decide)

@[simp] theorem stateBlock_previous (a : Account) (p : Option Bytes) (b : Int)
    (l : Bytes) : (stateBlock a p b l).previous = p := rfl

@[simp] theorem stateBlock_balance (a : Account) (p : Option Bytes) (b : Int)
    (l : Bytes) : (stateBlock a p b l).balance = b := rfl

@[simp] theorem stateBlock_representative (a : Account) (p : Option Bytes) (b : Int)
    (l : Bytes) : (stateBlock a p b l).representative = a.representative := rfl

@[simp] theorem stateBlock_link (a : Account) (p : Option Bytes) (b : Int)
    (l : Bytes) : (stateBlock a p b l).link = l := rfl

theorem signBlock_ok_fields (env : LedgerEnv) (impl : SignerImpl) (a : Account)
    (block signed : Block) (h : signBlock env impl a block = .ok signed) :
    signed.previous = block.previous ∧ signed.balance = block.balance ∧
    signed.representative = block.representative ∧ signed.link = block.link := by
  cases impl with
  | seedImpl =>
    simp only [signBlock, Except.ok.injEq] at h
    subst h
    exact ⟨rfl, rfl, rfl, rfl⟩
  | ledgerImpl => exact absurd h (by simp [signBlock])

/-- C1: with a decodable destination and a successful account-info query, SendBlock
fails with the insufficient-funds error whenever the amount exceeds the confirmed
balance, any block it returns carries balance = confirmed − amount, and for
amount = confirmed balance (with the seed signer) it succeeds with balance 0. -/
theorem SendBlock_insufficient_funds (env : LedgerEnv) (impl : SignerImpl)
    (a : Account) (dest : String) (amount : Int) (link : Bytes) (info : AccountInfo)
    (hl : env.addressToPubkey dest = .ok link)
    (hi : env.accountInfo a.address = .ok info) :
    (info.balance < amount →
      (SendBlock env impl a dest amount).2 = .error "insufficient funds") ∧
    (∀ b, (SendBlock env impl a dest amount).2 = .ok b →
      b.balance = info.balance - amount) ∧
    (amount = info.balance → impl = .seedImpl →
      ∃ b, (SendBlock env impl a dest amount).2 = .ok b ∧ b.balance = 0) := by
  refine ⟨?_, ?_, ?_⟩
  · intro hlt
    have hneg : info.balance - amount < 0 := by omega
    simp [SendBlock, hl, hi, hneg]
  · intro b hb
    by_cases hneg : info.balance - amount < 0
    · simp [SendBlock, hl, hi, hneg] at hb
    · simp only [SendBlock, hl, hi, if_neg hneg] at hb
      obtain ⟨hp, hbal, -, -⟩ := signBlock_ok_fields env impl _ _ b hb
      rw [hbal, stateBlock_balance]
  · intro heq himpl
    subst himpl
    subst heq
    have hneg : ¬ (info.balance - info.balance < 0) := by omega
    simp only [SendBlock, hl, hi, if_neg hneg, signBlock]
    exact ⟨_, rfl, sub_self _⟩

/-- C1 witness: on the concrete ledger with confirmed balance 500, sending 501 fails
with the insufficient-funds error and sending 500 succeeds with balance 0. -/
theorem SendBlock_insufficient_funds_witness :
    (infoW.balance < 501 ∧
      (SendBlock envSend .seedImpl acctW "dst" 501).2 = .error "insufficient funds") ∧
    (∃ b, (SendBlock envSend .seedImpl acctW "dst" 500).2 = .ok b ∧ b.balance = 0) :=
  ⟨⟨by decide,
    (SendBlock_insufficient_funds envSend .seedImpl acctW "dst" 501 [3] infoW rfl rfl).1
      (by decide)⟩,
   (SendBlock_insufficient_funds envSend .seedImpl acctW "dst" 500 [3] infoW rfl rfl).2.2
     rfl rfl⟩

/-- C10: both SendBlock and SendBlocks assign the cached representative from the
fetched ledger info before the funds check, so an insufficient-funds failure still
replaces an empty cached representative with the ledger-observed one, leaving every
other account field unchanged. -/
theorem SendBlock_rep_set_before_funds_check (env : LedgerEnv) (impl : SignerImpl)
    (a : Account) (info : AccountInfo)
    (hi : env.accountInfo a.address = .ok info)
    (hrep : a.representative = "") :
    (∀ dest link amount, env.addressToPubkey dest = .ok link → info.balance < amount →
      SendBlock env impl a dest amount =
        ({ a with representative := info.representative }, .error "insufficient funds")) ∧
    (∀ d rest link, env.addressToPubkey d.account = .ok link → info.balance < d.amount →
      SendBlocks env impl a (d :: rest) =
        ({ a with representative := info.representative }, .error "insufficient funds")) := by
  constructor
  · intro dest link amount hl hlt
    have hneg : info.balance - amount < 0 := by omega
    simp [SendBlock, hl, hi, hneg, updRep, hrep]
  · intro d rest link hl hlt
    have hneg : info.balance - d.amount < 0 := by omega
    simp [SendBlocks, hi, sendBlocksLoop, hl, hneg, updRep, hrep]

/-- C10 witness: on the concrete ledger, an insufficient-funds send still caches the
observed representative "REP" on the account for both SendBlock and SendBlocks. -/
theorem SendBlock_rep_set_before_funds_check_witness :
    SendBlock envSend .seedImpl acctW "dst" 501 =
      ({ acctW with representative := infoW.representative }, .error "insufficient funds") ∧
    SendBlocks envSend .seedImpl acctW [⟨"dst", 501⟩] =
      ({ acctW with representative := infoW.representative }, .error "insufficient funds") :=
  ⟨(SendBlock_rep_set_before_funds_check envSend .seedImpl acctW infoW rfl rfl).1
     "dst" [3] 501 rfl (by decide),
   (SendBlock_rep_set_before_funds_check envSend .seedImpl acctW infoW rfl rfl).2
     ⟨"dst", 501⟩ [] [3] rfl (by decide)⟩

theorem sendBlocksLoop_chain (env : LedgerEnv) (impl : SignerImpl) :
    ∀ (dests : List SendDestination) (a : Account) (infoRep : String) (bal : Int)
      (frontier : Option Bytes) (a2 : Account) (blocks : List Block),
      sendBlocksLoop env impl a infoRep bal frontier dests = (a2, .ok blocks) →
      blocks.length = dests.length ∧ chainOk env frontier bal dests blocks = true := by
  intro dests
  induction dests with
  | nil =>
    intro a infoRep bal frontier a2 blocks h
    simp only [sendBlocksLoop, Prod.mk.injEq, Except.ok.injEq] at h
    rw [← h.2]
    exact ⟨rfl, by simp [chainOk]⟩
  | cons d rest ih =>
    intro a infoRep bal frontier a2 blocks h
    simp only [sendBlocksLoop] at h
    split at h
    · simp at h
    · split at h
      · simp at h
      · rename_i link hlink hneg
        split at h
        · simp at h
        · rename_i signed hs
          split at h
          · simp at h
          · rename_i a3 blocks2 hr
            simp only [Prod.mk.injEq, Except.ok.injEq] at h
            rw [← h.2]
            obtain ⟨hlen, hchain⟩ := ih _ infoRep (bal - d.amount)
              (some (env.blockHash signed)) a3 blocks2 hr
            obtain ⟨hp, hbal, -, -⟩ := signBlock_ok_fields env impl _ _ signed hs
            rw [stateBlock_previous] at hp
            rw [stateBlock_balance] at hbal
            refine ⟨by simp [hlen], ?_⟩
            simp only [chainOk, Bool.and_eq_true, beq_iff_eq, decide_eq_true_eq]
            exact ⟨⟨⟨hp, hbal⟩, by rw [hbal]; omega⟩, by rw [hbal]; exact hchain⟩

/-- C2: whenever SendBlocks succeeds after a successful account-info fetch, it
returns one block per destination, the first block's previous is the fetched
frontier, each later block's previous is the hash of the block constructed just
before it, and each block's balance is the preceding balance minus that
destination's amount, never negative. -/
theorem SendBlocks_chain (env : LedgerEnv) (impl : SignerImpl) (a : Account)
    (dests : List SendDestination) (info : AccountInfo) (a2 : Account)
    (blocks : List Block)
    (hi : env.accountInfo a.address = .ok info)
    (h : SendBlocks env impl a dests = (a2, .ok blocks)) :
    blocks.length = dests.length ∧
    chainOk env info.frontier info.balance dests blocks = true := by
  simp only [SendBlocks, hi] at h
  exact sendBlocksLoop_chain env impl dests a info.representative info.balance
    info.frontier a2 blocks h

/-- C2 witness: the concrete two-destination chain send; the second block's previous
is `[144]`, the hash of the first constructed block. -/
theorem SendBlocks_chain_witness :
    SendBlocks envSend .seedImpl acctW sendDestsW =
      ({ acctW with representative := "REP" }, .ok [blockW1, blockW2]) ∧
    ([blockW1, blockW2].length = sendDestsW.length ∧
      chainOk envSend infoW.frontier infoW.balance sendDestsW [blockW1, blockW2] = true) :=
  ⟨by decide,
   SendBlocks_chain envSend .seedImpl acctW sendDestsW infoW
     { acctW with representative := "REP" } [blockW1, blockW2] rfl (by decide)⟩

@[simp] theorem changeRepBlock_balance (a : Account) (info : AccountInfo)
    (r : String) : (changeRepBlock a info r).balance = info.balance := rfl

@[simp] theorem changeRepBlock_link (a : Account) (info : AccountInfo)
    (r : String) : (changeRepBlock a info r).link = zeros32 := rfl

@[simp] theorem changeRepBlock_representative (a : Account) (info : AccountInfo)
    (r : String) : (changeRepBlock a info r).representative = r := rfl

/-- C7: ChangeRep updates the account's cached representative exactly when block
submission succeeds — on any error (account-info query, signing, work generation or
submission) the account is returned unchanged, and on success the cached
representative equals the new address and the submitted block carried the unchanged
balance and an all-zero link. -/
theorem ChangeRep_rep_iff_success (env : LedgerEnv) (impl : SignerImpl)
    (cfg : WalletCfg) (a : Account) (rep : String) :
    (∀ e, (ChangeRep env impl cfg a rep).2 = .error e →
      (ChangeRep env impl cfg a rep).1 = a) ∧
    (∀ info h, env.accountInfo a.address = .ok info →
      (ChangeRep env impl cfg a rep).2 = .ok h →
      (ChangeRep env impl cfg a rep).1 = { a with representative := rep } ∧
      ∃ b, env.process b "change" = .ok h ∧ b.balance = info.balance ∧
        b.link = zeros32 ∧ b.representative = rep) := by
  cases hi : env.accountInfo a.address with
  | error e0 =>
    exact ⟨fun e he => by simp [ChangeRep, hi],
      fun info h hinfo hok => Except.noConfusion hinfo⟩
  | ok info0 =>
    cases hs : signBlock env impl a (changeRepBlock a info0 rep) with
    | error e1 =>
      refine ⟨fun e he => by simp [ChangeRep, hi, hs], fun info h hinfo hok => ?_⟩
      simp [ChangeRep, hi, hs] at hok
    | ok signed =>
      cases hw : workGenerate env cfg (info0.frontier.getD []) with
      | error e2 =>
        refine ⟨fun e he => by simp [ChangeRep, hi, hs, hw], fun info h hinfo hok => ?_⟩
        simp [ChangeRep, hi, hs, hw] at hok
      | ok work =>
        cases hp : env.process { signed with work := some work } "change" with
        | error e3 =>
          refine ⟨fun e he => by simp [ChangeRep, hi, hs, hw, hp],
            fun info h hinfo hok => ?_⟩
          simp [ChangeRep, hi, hs, hw, hp] at hok
        | ok hash =>
          refine ⟨fun e he => ?_, fun info h hinfo hok => ?_⟩
          · simp [ChangeRep, hi, hs, hw, hp] at he
          · have hinfo0 : info0 = info := Except.ok.inj hinfo
            subst hinfo0
            have hok2 : hash = h := by simpa [ChangeRep, hi, hs, hw, hp] using hok
            subst hok2
            obtain ⟨-, hbal, hrep2, hlink2⟩ := signBlock_ok_fields env impl _ _ signed hs
            refine ⟨by simp [ChangeRep, hi, hs, hw, hp],
              { signed with work := some work }, hp, ?_, ?_, ?_⟩
            · show signed.balance = info0.balance
              rw [hbal, changeRepBlock_balance]
            · show signed.link = zeros32
              rw [hlink2, changeRepBlock_link]
            · show signed.representative = rep
              rw [hrep2, changeRepBlock_representative]

/-- C7 witness: on the concrete ledger a successful change-rep run caches "R2" and
submitted a block with the unchanged balance 500 and an all-zero link. -/
theorem ChangeRep_rep_iff_success_witness :
    envChange.accountInfo acctW.address = .ok infoW ∧
    ((ChangeRep envChange .seedImpl cfgW acctW "R2").1 =
      { acctW with representative := "R2" } ∧
    ∃ b, envChange.process b "change" = .ok [42] ∧ b.balance = infoW.balance ∧
      b.link = zeros32 ∧ b.representative = "R2") :=
  ⟨rfl,
   (ChangeRep_rep_iff_success envChange .seedImpl cfgW acctW "R2").2 infoW [42]
     rfl (by decide)⟩

/-- C5: a receive on an account with no existing frontier builds a block whose
previous is the 32-byte zero hash, whose proof-of-work is generated (at the
receive-specific difficulty, via workGenerateReceive) over the account's public key
rather than a frontier hash, and whose representative is the fixed default when
neither the cache nor the ledger supplies one. -/
theorem receivePending_open_block (env : LedgerEnv) (impl : SignerImpl)
    (cfg : WalletCfg) (a : Account) (info : AccountInfo) (link : Bytes)
    (a1 : Account) (h : Bytes)
    (hf : info.frontier = none)
    (hr : receivePending env impl cfg a info link = (a1, .ok h)) :
    ∃ b w, env.process b "receive" = .ok h ∧
      b.previous = some zeros32 ∧
      workGenerateReceive env cfg a.pubkey = .ok w ∧ b.work = some w ∧
      (a.representative = "" → info.representative = "" →
        b.representative = defaultRepresentative) := by
  simp only [receivePending, hf] at hr
  split at hr
  · simp at hr
  · rename_i signed hs
    split at hr
    · simp at hr
    · rename_i work hw
      simp only [Prod.mk.injEq] at hr
      obtain ⟨-, hp⟩ := hr
      obtain ⟨hprev, -, hrep2, -⟩ := signBlock_ok_fields env impl _ _ signed hs
      refine ⟨{ signed with work := some work }, work, hp, ?_, hw, rfl, ?_⟩
      · show signed.previous = some zeros32
        rw [hprev, stateBlock_previous]
      · intro hc ho
        show signed.representative = defaultRepresentative
        rw [hrep2, stateBlock_representative]
        show receiveRep a.representative info.representative = defaultRepresentative
        rw [hc, ho]
        simp [receiveRep]

/-- C5 witness: the concrete open receive — no frontier, empty representatives —
submits a block with zero-hash previous, public-key work and the default
representative. -/
theorem receivePending_open_block_witness :
    infoOpen.frontier = none ∧
    ∃ b w, envChange.process b "receive" = .ok [42] ∧
      b.previous = some zeros32 ∧
      workGenerateReceive envChange cfgW acctW.pubkey = .ok w ∧ b.work = some w ∧
      (acctW.representative = "" → infoOpen.representative = "" →
        b.representative = defaultRepresentative) :=
  ⟨rfl,
   receivePending_open_block envChange .seedImpl cfgW acctW infoOpen [9]
     { acctW with representative := defaultRepresentative } [42] rfl (by decide)⟩

theorem lookupAcct_none_iff (l : List (String × Account)) (address : String) :
    lookupAcct l address = none ↔ ∀ e ∈ l, e.1 ≠ address := by
  simp [lookupAcct, List.find?_eq_none]

theorem RegistryGood.insert (env : LedgerEnv) {l : List (String × Account)}
    {address : String} {pubkey key : Bytes} {i : Nat}
    (hg : RegistryGood env l) (hl : lookupAcct l address = none)
    (hd : env.deriveAccount i = .ok (pubkey, key))
    (ha : env.pubkeyToAddress pubkey = .ok address) :
    RegistryGood env (l ++ [(address,
      ({ index := i, key := key, pubkey := pubkey, address := address,
         representative := "" } : Account))]) := by
  have hnot := (lookupAcct_none_iff l address).1 hl
  constructor
  · rw [List.pairwise_append]
    refine ⟨hg.1, List.pairwise_singleton _ _, ?_⟩
    intro e he b hb
    simp only [List.mem_singleton] at hb
    subst hb
    exact hnot e he
  · intro e he
    rcases List.mem_append.mp he with h1 | h2
    · exact hg.2 e h1
    · simp only [List.mem_singleton] at h2
      subst h2
      simp [addrOfIndex, hd, ha]

theorem NewAccount_good (env : LedgerEnv) :
    ∀ fuel st index, RegistryGood env st.accounts →
      RegistryGood env (NewAccount env st index fuel).1.accounts := by
  intro fuel
  induction fuel with
  | zero => intro st index hg; exact hg
  | succ f ih =>
    intro st index hg
    cases index with
    | some i =>
      cases hd : env.deriveAccount i with
      | error e => simpa [NewAccount, hd] using hg
      | ok pk =>
        obtain ⟨pubkey, key⟩ := pk
        cases ha : env.pubkeyToAddress pubkey with
        | error e => simpa [NewAccount, hd, ha] using hg
        | ok address =>
          cases hl : lookupAcct st.accounts address with
          | some a0 => simpa [NewAccount, hd, ha, hl] using hg
          | none =>
            simp only [NewAccount, hd, ha, hl]
            exact RegistryGood.insert env hg hl hd ha
    | none =>
      cases hd : env.deriveAccount st.nextIndex with
      | error e => simpa [NewAccount, hd] using hg
      | ok pk =>
        obtain ⟨pubkey, key⟩ := pk
        cases ha : env.pubkeyToAddress pubkey with
        | error e => simpa [NewAccount, hd, ha] using hg
        | ok address =>
          cases hl : lookupAcct st.accounts address with
          | some a0 =>
            simp only [NewAccount, hd, ha, hl]
            exact ih _ none hg
          | none =>
            simp only [NewAccount, hd, ha, hl]
            exact RegistryGood.insert env hg hl hd ha

theorem runNewAccounts_good (env : LedgerEnv) :
    ∀ reqs st, RegistryGood env st.accounts →
      RegistryGood env (runNewAccounts env st reqs).accounts := by
  intro reqs
  induction reqs with
  | nil => intro st hg; exact hg
  | cons r rest ih =>
    intro st hg
    obtain ⟨index, fuel⟩ := r
    exact ih _ (NewAccount_good env fuel st index hg)

theorem pairwise_addr_index (env : LedgerEnv) {l : List (String × Account)}
    (hp : l.Pairwise (fun e₁ e₂ => e₁.1 ≠ e₂.1))
    (ha : ∀ e ∈ l, addrOfIndex env e.2.index = .ok e.1) :
    l.Pairwise (fun e₁ e₂ => e₁.1 ≠ e₂.1 ∧ e₁.2.index ≠ e₂.2.index) := by
  induction l with
  | nil => exact List.Pairwise.nil
  | cons x xs ih =>
    rcases List.pairwise_cons.mp hp with ⟨hx, hxs⟩
    refine List.pairwise_cons.mpr
      ⟨?_, ih hxs (fun e he => ha e (List.mem_cons_of_mem _ he))⟩
    intro e he
    refine ⟨hx e he, ?_⟩
    intro hidx
    have h1 := ha x (List.mem_cons_self _ _)
    have h2 := ha e (List.mem_cons_of_mem _ he)
    rw [hidx] at h1
    exact hx e he (Except.ok.inj (h1.symm.trans h2))

/-- C8: after any sequence of NewAccount calls starting from a fresh wallet, no two
registry entries share an address or a derivation index, and entries with the same
address key coincide (so every address maps to exactly one derivation index). -/
theorem NewAccount_registry_unique (env : LedgerEnv) (reqs : List (Option Nat × Nat)) :
    (runNewAccounts env initWalletState reqs).accounts.Pairwise
      (fun e₁ e₂ => e₁.1 ≠ e₂.1 ∧ e₁.2.index ≠ e₂.2.index) ∧
    ∀ address a₁ a₂,
      (address, a₁) ∈ (runNewAccounts env initWalletState reqs).accounts →
      (address, a₂) ∈ (runNewAccounts env initWalletState reqs).accounts → a₁ = a₂ := by
  have hg : RegistryGood env (runNewAccounts env initWalletState reqs).accounts :=
    runNewAccounts_good env reqs initWalletState
      ⟨List.Pairwise.nil, fun e he => absurd he (List.not_mem_nil e)⟩
  refine ⟨pairwise_addr_index env hg.1 hg.2, ?_⟩
  intro address a₁ a₂ h1 h2
  by_contra hne
  have hne2 : (address, a₁) ≠ (address, a₂) := fun hEq => hne (congrArg Prod.snd hEq)
  have hsym : Symmetric (fun e₁ e₂ : String × Account => e₁.1 ≠ e₂.1) :=
    fun _ _ h => h.symm
  exact (hg.1.forall hsym h1 h2 hne2) rfl

/-- C8 witness: the uniqueness conclusion on a concrete call sequence (two
auto-indexed accounts, then an explicit index 5). -/
theorem NewAccount_registry_unique_witness :
    (runNewAccounts envScanA initWalletState
      [(none, 1), (none, 1), (some 5, 1)]).accounts.Pairwise
      (fun e₁ e₂ => e₁.1 ≠ e₂.1 ∧ e₁.2.index ≠ e₂.2.index) :=
  (NewAccount_registry_unique envScanA [(none, 1), (none, 1), (some 5, 1)]).1

/-- C9: NewAccount with an explicit index whose derived address is already
registered returns the freshly derived account with no error and leaves the whole
wallet state — registry and nextIndex — unchanged; and an explicit-index call never
changes nextIndex (it is incremented only by auto-indexed calls). -/
theorem NewAccount_explicit_existing (env : LedgerEnv) (st : WalletState)
    (i : Nat) (pubkey key : Bytes) (address : String) (a0 : Account) (fuel : Nat)
    (hd : env.deriveAccount i = .ok (pubkey, key))
    (ha : env.pubkeyToAddress pubkey = .ok address)
    (hl : lookupAcct st.accounts address = some a0) :
    NewAccount env st (some i) (fuel + 1) =
      (st, .ok { index := i, key := key, pubkey := pubkey, address := address,
                 representative := "" }) ∧
    ∀ st' fuel', (NewAccount env st' (some i) fuel').1.nextIndex = st'.nextIndex := by
  constructor
  · simp [NewAccount, hd, ha, hl]
  · intro st' fuel'
    cases fuel' with
    | zero => rfl
    | succ f =>
      cases hd' : env.deriveAccount i with
      | error e => simp [NewAccount, hd']
      | ok pk =>
        obtain ⟨pubkey', key'⟩ := pk
        cases ha' : env.pubkeyToAddress pubkey' with
        | error e => simp [NewAccount, hd', ha']
        | ok address' =>
          cases hl' : lookupAcct st'.accounts address' with
          | none => simp [NewAccount, hd', ha', hl']
          | some a1 => simp [NewAccount, hd', ha', hl']

/-- C9 witness: re-deriving index 0, whose address "0" is already registered,
returns the derived account, leaves the state untouched, and nextIndex is unchanged
by explicit-index calls. -/
theorem NewAccount_explicit_existing_witness :
    NewAccount envScanA stC9 (some 0) 1 = (stC9, .ok (scanAcct 0)) ∧
    (NewAccount envScanA stC9 (some 0) 5).1.nextIndex = stC9.nextIndex :=
  ⟨(NewAccount_explicit_existing envScanA stC9 0 [0] [0] (Nat.repr 0) (scanAcct 0) 0
      rfl rfl (by decide)).1,
   (NewAccount_explicit_existing envScanA stC9 0 [0] [0] (Nat.repr 0) (scanAcct 0) 0
      rfl rfl (by decide)).2 stC9 5⟩

/-- C4 counterexample: with every probe index unused, one scan pass — run with a
recursion budget of a single pass, so no re-probe can happen — succeeds and empties
the registry: the probe of slot 4, one of the five lowest, is also evicted,
contradicting the claimed eviction of only the five highest slots followed by a
re-probe. -/
theorem ScanForAccounts_all_unused_counterexample :
    ScanForAccounts envScanA 1 initWalletState 1 = (initWalletState, .ok ()) ∧
    lookupAcct (ScanForAccounts envScanA 1 initWalletState 1).1.accounts
      (Nat.repr 4) = none := by
  exact ⟨by decide, by decide⟩

/-- C4 (amended): with the whole batch unused the scan evicts all ten probes,
rewinds nextIndex to the first probe's index (0) and terminates without re-probing
(a budget of one pass suffices); with a pending balance at slot 7 it evicts only
slots 9 and 8, keeps slots 0–7 with nextIndex rewound to 8, and recurses with a
fresh batch (one pass exhausts the budget; a second pass completes). -/
theorem ScanForAccounts_gap_scan :
    ScanForAccounts envScanA 1 initWalletState 1 = (initWalletState, .ok ()) ∧
    ScanForAccounts envScanB 1 initWalletState 1 =
      (stScanB, .error "scan recursion limit") ∧
    ScanForAccounts envScanB 1 initWalletState 2 = (stScanB, .ok ()) := by
  exact ⟨by decide, by decide, by decide⟩

end Gonano
